import Mathlib

/-!
Verification of the audyo library (src/src/lib.rs): a generic interleaved
sample buffer, interleave/de-interleave algorithms, the decode orchestration
loop, and the chunked Vorbis encode loop.

Shallow embedding conventions:
* Rust machine integers are modelled as `Nat` with explicit `% 2^w` where a
  cast matters (the `bitrate as u32` cast in `encode_vorbis`).
* A Rust panic (a failed `unwrap`, an out-of-bounds slice, an explicit
  `panic!` arm, integer division by zero) is modelled as `Option.none`; a
  returned `Result` is an `Except`.
* The external collaborators (symphonia's prober, per-codec decoder and
  sample conversion, and the vorbis_rs encoder) are out of scope of the
  repository; their observable outcomes are passed in as data
  (`Source`, `VorbisEncoderModel`), and the packet planes carried by a
  `ReadEvent` are the per-channel sample planes already converted to the
  buffer's representation, as produced by `AudioBufferRef::convert`.
-/

namespace Audyo

/-- The `Channels` enum of the source: `Mono = 1`, `Stereo = 2`. -/
inductive Channels where
  | mono
  | stereo
deriving DecidableEq

/-- The discriminant of the `Channels` enum (`channels as usize`). -/
def Channels.count : Channels → Nat
  | .mono => 1
  | .stereo => 2

/-- The symphonia `Layout` tag carried by codec parameters: the source maps
`Mono` and `Stereo` and hits `panic!()` on any other (multichannel) tag,
collapsed here into one `other` constructor. -/
inductive Layout where
  | mono
  | stereo
  | other
deriving DecidableEq

/-- The layout tag naming a given channel layout. -/
def Channels.toLayout : Channels → Layout
  | .mono => .mono
  | .stereo => .stereo

/-- The `Sample` trait capability used by the buffer: the silence value
`S::MID` of the representation. -/
class Sample (α : Type) where
  MID : α

/-- The `FromSample<S> for T` trait of symphonia: the element-wise numeric
conversion used by `SampleBuffer::converted`. -/
class FromSample (β : Type) (α : Type) where
  from_sample : α → β

instance : Sample Int := ⟨0⟩

instance : FromSample Int Int := ⟨id⟩

instance : FromSample Rat Int := ⟨fun n => (n : Rat)⟩

instance : Sample Rat := ⟨0⟩

/-- `SampleBuffer<S>` of the source: interleaved storage, a write cursor,
and the duration / channel-layout / sample-rate metadata. -/
structure SampleBuffer (α : Type) where
  buffer : List α
  written : Nat
  duration : Nat
  channels : Channels
  sample_rate : Nat
deriving DecidableEq

/-- `SampleBuffer::new`: allocates `channels as usize * duration` slots all
set to `S::MID`, with `written = 0`. -/
def SampleBuffer.new (α : Type) [Sample α] (duration : Nat) (channels : Channels)
    (sample_rate : Nat) : SampleBuffer α :=
  { buffer := List.replicate (channels.count * duration) Sample.MID
    written := 0
    duration := duration
    channels := channels
    sample_rate := sample_rate }

/-- `SampleBuffer::samples`: returns `&self.buffer`, the whole allocated
storage (not the written prefix). -/
def SampleBuffer.samples (b : SampleBuffer α) : List α :=
  b.buffer

/-- `SampleBuffer::duration` accessor. -/
def SampleBuffer.durationOf (b : SampleBuffer α) : Nat :=
  b.duration

/-- `SampleBuffer::converted::<T>`: a new buffer with every sample mapped
through `T::from_sample` and identical metadata. -/
def SampleBuffer.converted (β : Type) [FromSample β α] (b : SampleBuffer α) :
    SampleBuffer β :=
  { buffer := b.buffer.map FromSample.from_sample
    written := b.written
    duration := b.duration
    channels := b.channels
    sample_rate := b.sample_rate }

/-- `interleave`: Mono takes `samples[0]` unchanged; Stereo zips
`samples[0]` with `samples[1]`, emitting left then right per frame. The
out-of-bounds indexing panic (too few planes) is modelled as `none`. -/
def interleave (samples : List (List α)) (channels : Channels) : Option (List α) :=
  match channels with
  | .mono => samples.get? 0
  | .stereo =>
    match samples.get? 0, samples.get? 1 with
    | some p0, some p1 => some ((p0.zip p1).flatMap fun lr => [lr.1, lr.2])
    | _, _ => none

/-- The Stereo loop of `deintereave`: steps by two pushing `samples[i]` into
plane 0 and `samples[i + 1]` into plane 1; the `samples[i + 1]` indexing
panic on an odd-length input is modelled as `none`. -/
def deintStereo : List α → Option (List α × List α)
  | [] => some ([], [])
  | [_] => none
  | a :: b :: rest => (deintStereo rest).map fun lr => (a :: lr.1, b :: lr.2)

/-- `deintereave` (source spelling): Mono wraps the input in a singleton
sequence; Stereo splits even indices into plane 0 and odd indices into
plane 1. -/
def deintereave (samples : List α) (channels : Channels) : Option (List (List α)) :=
  match channels with
  | .mono => some [samples]
  | .stereo => (deintStereo samples).map fun lr => [lr.1, lr.2]

/-- Fuel-driven worker for `chunks2048`: each step emits one chunk of up to
2048 samples and consumes one unit of fuel, so any fuel at least the list
length (one chunk never being empty) computes all chunks. -/
def chunksFuel : Nat → List α → List (List α)
  | _, [] => []
  | 0, _ :: _ => []
  | fuel + 1, x :: xs => (x :: xs).take 2048 :: chunksFuel fuel (xs.drop 2047)

/-- The `samples.samples().chunks(2048)` iterator of `encode_vorbis`:
successive chunks of 2048 samples, the last chunk possibly shorter. -/
def chunks2048 (l : List α) : List (List α) :=
  chunksFuel l.length l

theorem chunksFuel_flatten : ∀ fuel (l : List α), l.length ≤ fuel →
    (chunksFuel fuel l).flatten = l
  | _, [], _ => by simp [chunksFuel]
  | 0, x :: xs, h => by simp at h
  | fuel + 1, x :: xs, h => by
    rw [chunksFuel]
    have hr : (xs.drop 2047).length ≤ fuel := by
      simp only [List.length_drop]
      simp only [List.length_cons] at h
      omega
    have h2 : xs.drop 2047 = (x :: xs).drop 2048 := rfl
    rw [List.flatten_cons, chunksFuel_flatten fuel (xs.drop 2047) hr, h2]
    exact List.take_append_drop 2048 (x :: xs)

theorem chunks2048_flatten (l : List α) : (chunks2048 l).flatten = l :=
  chunksFuel_flatten l.length l le_rfl

theorem chunksFuel_length : ∀ fuel (l : List α), l.length ≤ fuel →
    (chunksFuel fuel l).length = (l.length + 2047) / 2048
  | _, [], _ => by simp [chunksFuel]
  | 0, x :: xs, h => by simp at h
  | fuel + 1, x :: xs, h => by
    rw [chunksFuel]
    have hr : (xs.drop 2047).length ≤ fuel := by
      simp only [List.length_drop]
      simp only [List.length_cons] at h
      omega
    simp only [List.length_cons, chunksFuel_length fuel (xs.drop 2047) hr, List.length_drop]
    omega

theorem chunks2048_length (l : List α) : (chunks2048 l).length = (l.length + 2047) / 2048 :=
  chunksFuel_length l.length l le_rfl

theorem chunksFuel_even : ∀ fuel (l : List α), l.length ≤ fuel → l.length % 2 = 0 →
    ∀ c ∈ chunksFuel fuel l, c.length % 2 = 0
  | _, [], _, _, c, hc => by simp [chunksFuel] at hc
  | 0, x :: xs, h, _, c, hc => by simp at h
  | fuel + 1, x :: xs, h, heven, c, hc => by
    rw [chunksFuel] at hc
    rcases List.mem_cons.mp hc with h1 | h1
    · subst h1
      simp only [List.length_take, List.length_cons]
      simp only [List.length_cons] at heven
      omega
    · refine chunksFuel_even fuel (xs.drop 2047) ?_ ?_ c h1
      · simp only [List.length_drop]
        simp only [List.length_cons] at h
        omega
      · simp only [List.length_drop]
        simp only [List.length_cons] at heven
        omega

theorem chunks2048_even (l : List α) (heven : l.length % 2 = 0) :
    ∀ c ∈ chunks2048 l, c.length % 2 = 0 :=
  chunksFuel_even l.length l le_rfl heven

/-- A symphonia-level error (opaque to this core; `#[from] SymphoniaError`
wraps it into `DecodeError::Symphonia`). -/
inductive SymphoniaError where
  | mk (code : Nat)
deriving DecidableEq

/-- The `DecodeError` enum of the source. -/
inductive DecodeError where
  | Symphonia (e : SymphoniaError)
  | PropertyLacking (s : String)
deriving DecidableEq

/-- The symphonia `TimeBase` (numerator / denominator in seconds per
timestamp tick). -/
structure TimeBase where
  numer : Nat
  denom : Nat
deriving DecidableEq

/-- Modelled from the spec: symphonia's `TimeBase::calc_time` applied to the
total frame count yields the stream duration, and `.seconds` is its
whole-seconds part, `⌊ts * numer / denom⌋`. The `TimeBase` implementation is
external to this repository. -/
def TimeBase.calcTimeSeconds (tb : TimeBase) (ts : Nat) : Nat :=
  ts * tb.numer / tb.denom

/-- The codec parameters of a track, as read by `decode`: each field the
source consults, optional exactly as in symphonia. `channels` is the raw
channel count (`Channels::count()` of the symphonia bitflags value). -/
structure CodecParams where
  n_frames : Option Nat
  channel_layout : Option Layout
  channels : Option Nat
  sample_rate : Option Nat
  time_base : Option TimeBase
deriving DecidableEq

/-- A demuxed track: its id and codec parameters. -/
structure Track where
  id : Nat
  codec_params : CodecParams
deriving DecidableEq

/-- The outcome of `decoder.decode(&packet)` for one packet: per-channel
planes (already converted to the buffer representation) on success, a
recoverable `SymphoniaError::DecodeError` (the discarded-packet arm), or any
other error (the arm that breaks the loop). -/
inductive PacketOutcome (α : Type) where
  | ok (planes : List (List α))
  | decodeErr
  | otherErr
deriving DecidableEq

/-- One result of `reader.next_packet()`: a packet tagged with its owning
track id and its decode outcome, or a reader-level error (which breaks the
loop; end of stream is one such error, so an exhausted event list and an
explicit `readErr` behave identically). -/
inductive ReadEvent (α : Type) where
  | packet (track_id : Nat) (outcome : PacketOutcome α)
  | readErr
deriving DecidableEq

/-- The format reader obtained from the prober: a default track (if any) and
the stream of packet-read results. -/
structure Reader (α : Type) where
  default_track : Option Track
  events : List (ReadEvent α)
deriving DecidableEq

instance {ε α : Type} [DecidableEq ε] [DecidableEq α] : DecidableEq (Except ε α) := fun a b =>
  match a, b with
  | .error a1, .error a2 => decidable_of_iff (a1 = a2) (by simp)
  | .error _, .ok _ => isFalse (by simp)
  | .ok _, .error _ => isFalse (by simp)
  | .ok a1, .ok a2 => decidable_of_iff (a1 = a2) (by simp)

/-- A media source together with the observable outcomes of the external
collaborators `decode` drives: the reported byte length, the probe result,
and the decoder-construction result. -/
structure Source (α : Type) where
  byte_len : Option Nat
  probe : Except SymphoniaError (Reader α)
  make_decoder : Except SymphoniaError Unit
deriving DecidableEq

/-- `SampleBuffer::copy_samples`: interleaves the converted planes and
copies them into `buffer[written .. written + len]`, advancing `written`.
The out-of-range slice panic (writing past capacity) is modelled as
`none`. -/
def SampleBuffer.copy_samples (b : SampleBuffer α) (planes : List (List α)) :
    Option (SampleBuffer α) :=
  match interleave planes b.channels with
  | none => none
  | some interleaved =>
    if b.written + interleaved.length ≤ b.buffer.length then
      some { b with
        buffer := b.buffer.take b.written ++ interleaved
          ++ b.buffer.drop (b.written + interleaved.length)
        written := b.written + interleaved.length }
    else none

/-- The packet loop of `decode`: breaks on a reader error, skips packets of
other tracks, appends on successful decode, discards the packet on a
recoverable `DecodeError`, and breaks on any other decoder error. -/
def decodeLoop (id : Nat) : SampleBuffer α → List (ReadEvent α) → Option (SampleBuffer α)
  | b, [] => some b
  | b, .readErr :: _ => some b
  | b, .packet tid outcome :: rest =>
    if tid = id then
      match outcome with
      | .ok planes =>
        match b.copy_samples planes with
        | none => none
        | some b2 => decodeLoop id b2 rest
      | .decodeErr => decodeLoop id b rest
      | .otherErr => some b
    else decodeLoop id b rest

/-- `decode`, instrumented with the number of `SampleBuffer::new` calls
performed (second component). The result is `none` on a panic (the
`panic!()` arm for a multichannel layout tag, the `u64` division by zero in
the bitrate computation, or a write past capacity in the loop), and
otherwise the `Result` value the function returns. -/
def decodeAux (α : Type) [Sample α] (src : Source α) :
    Option (Except DecodeError (Nat × SampleBuffer α)) × Nat :=
  match src.byte_len with
  | none => (some (.error (.PropertyLacking "source length")), 0)
  | some len =>
    match src.probe with
    | .error e => (some (.error (.Symphonia e)), 0)
    | .ok reader =>
      match reader.default_track with
      | none => (some (.error (.PropertyLacking "default track")), 0)
      | some track =>
        match track.codec_params.n_frames with
        | none => (some (.error (.PropertyLacking "n_frames")), 0)
        | some n_frames =>
          let afterChannels : Channels →
              Option (Except DecodeError (Nat × SampleBuffer α)) × Nat := fun ch =>
            match track.codec_params.sample_rate with
            | none => (some (.error (.PropertyLacking "sample rate")), 0)
            | some sr =>
              let buffer := SampleBuffer.new α n_frames ch sr
              match src.make_decoder with
              | .error e => (some (.error (.Symphonia e)), 1)
              | .ok _ =>
                match track.codec_params.time_base with
                | none => (some (.error (.PropertyLacking "time base")), 1)
                | some tb =>
                  let secs := tb.calcTimeSeconds n_frames
                  if secs = 0 then (none, 1)
                  else
                    let bitrate := len / secs * 8
                    match decodeLoop track.id buffer reader.events with
                    | none => (none, 1)
                    | some b => (some (.ok (bitrate, b)), 1)
          match track.codec_params.channel_layout with
          | some .mono => afterChannels .mono
          | some .stereo => afterChannels .stereo
          | some .other => (none, 0)
          | none =>
            match track.codec_params.channels with
            | some c => afterChannels (if c > 1 then .stereo else .mono)
            | none => (some (.error (.PropertyLacking "channel layout")), 0)

/-- `decode`: the result component of `decodeAux`. -/
def decode (α : Type) [Sample α] (src : Source α) :
    Option (Except DecodeError (Nat × SampleBuffer α)) :=
  (decodeAux α src).1

/-- A canonical source whose selected default track carries complete codec
parameters, used to state theorems about the post-metadata stages of
`decode`. -/
def mkSource (α : Type) (len n_frames sr numer denom id : Nat) (ch : Channels)
    (events : List (ReadEvent α)) : Source α :=
  { byte_len := some len
    probe := .ok
      { default_track := some
          { id := id
            codec_params :=
              { n_frames := some n_frames
                channel_layout := some ch.toLayout
                channels := none
                sample_rate := some sr
                time_base := some ⟨numer, denom⟩ } }
        events := events }
    make_decoder := .ok () }

/-- Specification-side characterization (from the claim's words): the planes
of the packets of the selected track that decode successfully, up to the
first reader error or non-recoverable decoder error. -/
def decodedPlanesSpec (id : Nat) : List (ReadEvent α) → List (List (List α))
  | [] => []
  | .readErr :: _ => []
  | .packet tid outcome :: rest =>
    if tid = id then
      match outcome with
      | .ok planes => planes :: decodedPlanesSpec id rest
      | .decodeErr => decodedPlanesSpec id rest
      | .otherErr => []
    else decodedPlanesSpec id rest

/-- Specification-side characterization: the interleaved samples of the
successfully decoded packets, in stream order. -/
def decodedSamples (id : Nat) (ch : Channels) (events : List (ReadEvent α)) : List α :=
  ((decodedPlanesSpec id events).map fun pl => (interleave pl ch).getD []).flatten

theorem deintStereo_spec : ∀ a : List α, a.length % 2 = 0 →
    ∃ lr : List α × List α, deintStereo a = some lr ∧
      ((lr.1.zip lr.2).flatMap fun x => [x.1, x.2]) = a
  | [], _ => ⟨([], []), rfl, rfl⟩
  | [_], h => by simp at h
  | x :: y :: rest, h => by
    have h2 : rest.length % 2 = 0 := by
      simp only [List.length_cons] at h
      omega
    obtain ⟨⟨l, r⟩, hd, hz⟩ := deintStereo_spec rest h2
    refine ⟨(x :: l, y :: r), ?_, ?_⟩
    · simp [deintStereo, hd]
    · simp [List.zip_cons_cons, hz]

theorem deintStereo_isSome (a : List α) (h : a.length % 2 = 0) :
    (deintStereo a).isSome := by
  obtain ⟨lr, hd, _⟩ := deintStereo_spec a h
  simp [hd]

/-- Characterization of the packet loop: starting from any buffer state, if
every successfully decoded packet of the selected track has interleavable
planes and the decoded samples fit past the write cursor, the loop returns
the buffer with exactly those samples copied in at the cursor, in stream
order, and the cursor advanced by their count. -/
theorem decodeLoop_spec (id : Nat) :
    ∀ (events : List (ReadEvent α)) (b : SampleBuffer α),
      (∀ pl ∈ decodedPlanesSpec id events, (interleave pl b.channels).isSome) →
      b.written + (decodedSamples id b.channels events).length ≤ b.buffer.length →
      ∃ b2, decodeLoop id b events = some b2 ∧
        b2.buffer = b.buffer.take b.written ++ decodedSamples id b.channels events
          ++ b.buffer.drop (b.written + (decodedSamples id b.channels events).length) ∧
        b2.written = b.written + (decodedSamples id b.channels events).length ∧
        b2.duration = b.duration ∧ b2.channels = b.channels ∧
        b2.sample_rate = b.sample_rate
  | [], b, _, _ => by
    refine ⟨b, rfl, ?_, by simp [decodedSamples, decodedPlanesSpec], rfl, rfl, rfl⟩
    simp [decodedSamples, decodedPlanesSpec, List.take_append_drop]
  | .readErr :: rest, b, _, _ => by
    refine ⟨b, rfl, ?_, by simp [decodedSamples, decodedPlanesSpec], rfl, rfl, rfl⟩
    simp [decodedSamples, decodedPlanesSpec, List.take_append_drop]
  | .packet tid outcome :: rest, b, hok, hfit => by
    by_cases htid : tid = id
    · subst htid
      cases outcome with
      | ok planes =>
        have hokHead : (interleave planes b.channels).isSome := by
          apply hok
          simp [decodedPlanesSpec]
        obtain ⟨il, hil⟩ := Option.isSome_iff_exists.mp hokHead
        have hS : decodedSamples tid b.channels (.packet tid (.ok planes) :: rest)
            = il ++ decodedSamples tid b.channels rest := by
          simp [decodedSamples, decodedPlanesSpec, hil]
        rw [hS] at hfit
        have hlen : il.length + (decodedSamples tid b.channels rest).length
            = (il ++ decodedSamples tid b.channels rest).length := by
          simp
        have hfit1 : b.written + il.length ≤ b.buffer.length := by
          simp only [List.length_append] at hfit
          omega
        set b2 : SampleBuffer α :=
          { b with
            buffer := b.buffer.take b.written ++ il
              ++ b.buffer.drop (b.written + il.length)
            written := b.written + il.length } with hb2
        have hcopy : b.copy_samples planes = some b2 := by
          simp [SampleBuffer.copy_samples, hil, hfit1, hb2]
        have hlen2 : b2.buffer.length = b.buffer.length := by
          simp only [hb2, List.length_append, List.length_take, List.length_drop]
          omega
        have hch2 : b2.channels = b.channels := rfl
        have hfit2 : b2.written + (decodedSamples tid b2.channels rest).length
            ≤ b2.buffer.length := by
          rw [hlen2, hch2]
          simp only [hb2, List.length_append] at hfit ⊢
          omega
        have hok2 : ∀ pl ∈ decodedPlanesSpec tid rest, (interleave pl b2.channels).isSome := by
          intro pl hpl
          rw [hch2]
          apply hok
          simp [decodedPlanesSpec, hpl]
        obtain ⟨b3, hloop, hbuf3, hw3, hd3, hch3, hsr3⟩ := decodeLoop_spec tid rest b2 hok2 hfit2
        refine ⟨b3, ?_, ?_, ?_, ?_, ?_, ?_⟩
        · simp only [decodeLoop, if_pos rfl, hcopy]
          exact hloop
        · rw [hbuf3, hS, hch2]
          have htake : b2.buffer.take b2.written = b.buffer.take b.written ++ il := by
            simp only [hb2, ← List.append_assoc]
            refine List.take_left' ?_
            simp only [List.length_append, List.length_take]
            omega
          have hdrop : b2.buffer.drop (b2.written
              + (decodedSamples tid b.channels rest).length)
              = b.buffer.drop (b.written
                + (il ++ decodedSamples tid b.channels rest).length) := by
            have hpre : b2.buffer.drop b2.written = b.buffer.drop (b.written + il.length) := by
              simp only [hb2, ← List.append_assoc]
              refine List.drop_left' ?_
              simp only [List.length_append, List.length_take]
              omega
            calc b2.buffer.drop (b2.written + (decodedSamples tid b.channels rest).length)
                = (b2.buffer.drop b2.written).drop
                    (decodedSamples tid b.channels rest).length := by
                  rw [List.drop_drop]
              _ = (b.buffer.drop (b.written + il.length)).drop
                    (decodedSamples tid b.channels rest).length := by rw [hpre]
              _ = b.buffer.drop (b.written
                    + (il ++ decodedSamples tid b.channels rest).length) := by
                  rw [List.drop_drop]
                  congr 1
                  simp only [List.length_append]
                  omega
          rw [htake, hdrop]
          simp [List.append_assoc]
        · rw [hw3, hS, hch2]
          simp only [hb2, List.length_append]
          omega
        · rw [hd3]
        · rw [hch3]
        · rw [hsr3]
      | decodeErr =>
        have hS : decodedSamples tid b.channels (.packet tid .decodeErr :: rest)
            = decodedSamples tid b.channels rest := by
          simp [decodedSamples, decodedPlanesSpec]
        rw [hS] at hfit
        have hok2 : ∀ pl ∈ decodedPlanesSpec tid rest, (interleave pl b.channels).isSome := by
          intro pl hpl
          apply hok
          simp [decodedPlanesSpec, hpl]
        obtain ⟨b3, hloop, hrest⟩ := decodeLoop_spec tid rest b hok2 hfit
        refine ⟨b3, ?_, ?_⟩
        · simp only [decodeLoop, if_pos rfl]
          exact hloop
        · rw [hS]
          exact hrest
      | otherErr =>
        refine ⟨b, by simp [decodeLoop], ?_, by simp [decodedSamples, decodedPlanesSpec],
          rfl, rfl, rfl⟩
        simp [decodedSamples, decodedPlanesSpec, List.take_append_drop]
    · have hS : decodedSamples id b.channels (.packet tid outcome :: rest)
          = decodedSamples id b.channels rest := by
        simp [decodedSamples, decodedPlanesSpec, htid]
      rw [hS] at hfit
      have hok2 : ∀ pl ∈ decodedPlanesSpec id rest, (interleave pl b.channels).isSome := by
        intro pl hpl
        apply hok
        simp [decodedPlanesSpec, htid, hpl]
      obtain ⟨b3, hloop, hrest⟩ := decodeLoop_spec id rest b hok2 hfit
      refine ⟨b3, ?_, ?_⟩
      · simp only [decodeLoop, if_neg htid]
        exact hloop
      · rw [hS]
        exact hrest

/-- An error produced by the external vorbis_rs encoder. -/
inductive VorbisError where
  | mk (code : Nat)
deriving DecidableEq

/-- The observable outcomes of the external vorbis_rs collaborator driven by
`encode_vorbis`: builder construction, `build()`, each
`encode_audio_block` submission, and `finish()`. -/
structure VorbisEncoderModel (α : Type) where
  builder_new : Except VorbisError Unit
  build : Except VorbisError Unit
  encode_audio_block : List (List α) → Except VorbisError Unit
  finish : Except VorbisError (List Nat)

/-- An encoder model whose every operation succeeds, finishing with the
given byte stream. -/
def alwaysOkEncoder (α : Type) (bytes : List Nat) : VorbisEncoderModel α :=
  { builder_new := .ok ()
    build := .ok ()
    encode_audio_block := fun _ => .ok ()
    finish := .ok bytes }

/-- The overall outcome of `encode_vorbis`: a panic (failed `unwrap`), an
error result, or the compressed bytes. -/
inductive EncodeOutcome where
  | panic
  | error (e : VorbisError)
  | ok (bytes : List Nat)
deriving DecidableEq

/-- Whether the outcome is an error result (`Err(VorbisError)`). -/
def EncodeOutcome.isError : EncodeOutcome → Bool
  | .error _ => true
  | _ => false

/-- The chunk loop of `encode_vorbis`, instrumented with the number of
`encode_audio_block` calls made: de-interleaves each chunk (its odd-length
Stereo panic modelled as `none`) and submits it, propagating the first
block-encode error. -/
def encodeLoop (enc : VorbisEncoderModel α) (ch : Channels) :
    List (List α) → Nat → Option (Except VorbisError Unit) × Nat
  | [], n => (some (.ok ()), n)
  | chunk :: rest, n =>
    match deintereave chunk ch with
    | none => (none, n)
    | some planes =>
      match enc.encode_audio_block planes with
      | .error e => (some (.error e), n + 1)
      | .ok _ => encodeLoop enc ch rest (n + 1)

/-- `encode_vorbis`, instrumented with the number of `encode_audio_block`
calls (second component). The `NonZeroU32::new(sample_rate).unwrap()`,
`NonZeroU8::new(channels as u8).unwrap()` and
`NonZeroU32::new(bitrate as u32).unwrap()` panics are modelled as
`.panic`; `bitrate as u32` keeps the low 32 bits. -/
def encode_vorbis (enc : VorbisEncoderModel α) (samples : SampleBuffer α)
    (bitrate : Nat) : EncodeOutcome × Nat :=
  if samples.sample_rate = 0 then (.panic, 0)
  else if samples.channels.count % 256 = 0 then (.panic, 0)
  else
    match enc.builder_new with
    | .error e => (.error e, 0)
    | .ok _ =>
      if bitrate % 4294967296 = 0 then (.panic, 0)
      else
        match enc.build with
        | .error e => (.error e, 0)
        | .ok _ =>
          match encodeLoop enc samples.channels (chunks2048 samples.samples) 0 with
          | (none, n) => (.panic, n)
          | (some (.error e), n) => (.error e, n)
          | (some (.ok _), n) =>
            match enc.finish with
            | .error e => (.error e, n)
            | .ok bytes => (.ok bytes, n)

theorem encodeLoop_count (enc : VorbisEncoderModel α) (ch : Channels)
    (hblk : ∀ pl, enc.encode_audio_block pl = .ok ()) :
    ∀ (chunks : List (List α)) (n : Nat),
      (∀ c ∈ chunks, (deintereave c ch).isSome) →
      encodeLoop enc ch chunks n = (some (.ok ()), n + chunks.length)
  | [], n, _ => by simp [encodeLoop]
  | c :: rest, n, h => by
    have hc : (deintereave c ch).isSome := h c (by simp)
    obtain ⟨planes, hp⟩ := Option.isSome_iff_exists.mp hc
    have hrest : ∀ c2 ∈ rest, (deintereave c2 ch).isSome := fun c2 hc2 =>
      h c2 (by simp [hc2])
    rw [encodeLoop, hp]
    simp only [hblk planes]
    rw [encodeLoop_count enc ch hblk rest (n + 1) hrest]
    simp only [List.length_cons, Prod.mk.injEq, true_and]
    omega

theorem deintereave_isSome_of_even (c : List α) (ch : Channels)
    (h : ch = .mono ∨ c.length % 2 = 0) : (deintereave c ch).isSome := by
  cases ch with
  | mono => simp [deintereave]
  | stereo =>
    rcases h with h | h
    · cases h
    · have h2 := deintStereo_isSome c h
      obtain ⟨lr, hd⟩ := Option.isSome_iff_exists.mp h2
      simp [deintereave, hd]

/-- C7: interleave/de-interleave round-trip. Under the Stereo layout, for
every even-length array `a`, de-interleaving yields the two planes (of
length `a.length / 2`) whose re-interleaving (plane 0 element then plane 1
element per frame) is `a` again; under Mono the round-trip is the identity
for an array of any length. -/
theorem C7_interleave_deintereave_roundtrip (a : List α) :
    (a.length % 2 = 0 →
      (deintereave a .stereo).bind (fun ps => interleave ps .stereo) = some a) ∧
    (deintereave a .mono).bind (fun ps => interleave ps .mono) = some a := by
  constructor
  · intro h
    obtain ⟨⟨l, r⟩, hd, hz⟩ := deintStereo_spec a h
    simp [deintereave, hd, interleave, hz]
  · simp [deintereave, interleave]

theorem C7_witness :
    (([1, 2, 3, 4] : List Int).length % 2 = 0 ∧
      (deintereave ([1, 2, 3, 4] : List Int) .stereo).bind
        (fun ps => interleave ps .stereo) = some [1, 2, 3, 4]) ∧
    (deintereave ([5, 6, 7] : List Int) .mono).bind
      (fun ps => interleave ps .mono) = some [5, 6, 7] :=
  ⟨⟨by decide, (C7_interleave_deintereave_roundtrip [1, 2, 3, 4]).1 (by decide)⟩,
    (C7_interleave_deintereave_roundtrip [5, 6, 7]).2⟩

/-- C8: `SampleBuffer::new` allocates exactly `duration * channel_count`
elements, every element equal to the representation's neutral value
`S::MID`, with `written = 0` and the requested metadata stored; it has no
failure mode, and `duration = 0` yields a valid empty buffer. -/
theorem C8_new_allocates_silence (α : Type) [Sample α] (d : Nat) (ch : Channels)
    (sr : Nat) :
    (SampleBuffer.new α d ch sr).buffer.length = d * ch.count ∧
    (∀ x ∈ (SampleBuffer.new α d ch sr).samples, x = Sample.MID) ∧
    (SampleBuffer.new α d ch sr).written = 0 ∧
    (SampleBuffer.new α d ch sr).duration = d ∧
    (SampleBuffer.new α d ch sr).channels = ch ∧
    (SampleBuffer.new α d ch sr).sample_rate = sr ∧
    (d = 0 → (SampleBuffer.new α d ch sr).buffer = []) := by
  refine ⟨by simp [SampleBuffer.new, Nat.mul_comm], ?_, rfl, rfl, rfl, rfl, ?_⟩
  · intro x hx
    exact List.eq_of_mem_replicate hx
  · intro h
    subst h
    simp [SampleBuffer.new]

theorem C8_witness :
    (SampleBuffer.new Int 3 .stereo 44100).buffer.length = 3 * Channels.count .stereo ∧
    (∀ x ∈ (SampleBuffer.new Int 3 .stereo 44100).samples, x = Sample.MID) ∧
    (SampleBuffer.new Int 3 .stereo 44100).written = 0 ∧
    (SampleBuffer.new Int 0 .mono 8000).buffer = [] := by
  obtain ⟨h1, h2, h3, _, _, _, _⟩ := C8_new_allocates_silence Int 3 .stereo 44100
  obtain ⟨_, _, _, _, _, _, h7⟩ := C8_new_allocates_silence Int 0 .mono 8000
  exact ⟨h1, h2, h3, h7 rfl⟩

/-- C9: `SampleBuffer::converted::<T>` produces a new buffer with the same
written count, duration, channel layout and sample rate, whose storage is
the element-wise `T::from_sample` image of the source storage; the source
buffer is taken by shared reference and is not mutated (the embedding is
pure, so purity holds by construction). -/
theorem C9_converted_shape (α β : Type) [FromSample β α] (b : SampleBuffer α) :
    (b.converted β).written = b.written ∧
    (b.converted β).duration = b.duration ∧
    (b.converted β).channels = b.channels ∧
    (b.converted β).sample_rate = b.sample_rate ∧
    (b.converted β).buffer = b.buffer.map FromSample.from_sample ∧
    (b.converted β).samples.length = b.samples.length :=
  ⟨rfl, rfl, rfl, rfl, rfl, by simp [SampleBuffer.converted, SampleBuffer.samples]⟩

/-- C6: when the format reader reports no default track, `decode` fails
with `PropertyLacking("default track")` and performs no sample-buffer
allocation (the `SampleBuffer::new` count of the instrumented embedding is
zero: the failure occurs before buffer construction). -/
theorem C6_no_default_track (α : Type) [Sample α] (src : Source α) (len : Nat)
    (reader : Reader α) (h1 : src.byte_len = some len) (h2 : src.probe = .ok reader)
    (h3 : reader.default_track = none) :
    decode α src = some (.error (.PropertyLacking "default track")) ∧
    (decodeAux α src).2 = 0 := by
  simp [decode, decodeAux, h1, h2, h3]

theorem C6_witness :
    decode Int { byte_len := some 100
                 probe := .ok { default_track := none, events := [.readErr] }
                 make_decoder := .ok () }
      = some (.error (.PropertyLacking "default track")) ∧
    (decodeAux Int { byte_len := some 100
                     probe := .ok { default_track := none, events := [.readErr] }
                     make_decoder := .ok () }).2 = 0 :=
  C6_no_default_track Int _ 100 { default_track := none, events := [.readErr] } rfl rfl rfl

/-- The concrete source of the C4 counterexample: its default track lacks
both the channel layout tag, the raw channel count and the total frame
count, while the byte length, sample rate and time base are present. -/
def c4Source : Source Int :=
  { byte_len := some 100
    probe := .ok
      { default_track := some
          { id := 1
            codec_params :=
              { n_frames := none
                channel_layout := none
                channels := none
                sample_rate := some 44100
                time_base := some ⟨1, 44100⟩ } }
        events := [] }
    make_decoder := .ok () }

theorem C4_counterexample :
    decode Int c4Source = some (.error (.PropertyLacking "n_frames")) ∧
    decode Int c4Source ≠ some (.error (.PropertyLacking "channel layout")) := by
  constructor
  · decide
  · decide

/-- C4 (amended): `decode` reads the total frame count before resolving the
channel layout, so a track lacking the frame count fails with
`PropertyLacking("n_frames")` regardless of the channel metadata; in
particular a track lacking both fails with `PropertyLacking("n_frames")`,
not `PropertyLacking("channel layout")`. -/
theorem C4_n_frames_checked_first (α : Type) [Sample α] (src : Source α) (len : Nat)
    (reader : Reader α) (track : Track) (h1 : src.byte_len = some len)
    (h2 : src.probe = .ok reader) (h3 : reader.default_track = some track)
    (h4 : track.codec_params.n_frames = none) :
    decode α src = some (.error (.PropertyLacking "n_frames")) := by
  simp [decode, decodeAux, h1, h2, h3, h4]

theorem C4_witness :
    decode Int
      { byte_len := some 100
        probe := .ok
          { default_track := some
              { id := 1
                codec_params :=
                  { n_frames := none
                    channel_layout := some .stereo
                    channels := some 2
                    sample_rate := some 44100
                    time_base := some ⟨1, 44100⟩ } }
            events := [] }
        make_decoder := .ok () }
      = some (.error (.PropertyLacking "n_frames")) :=
  C4_n_frames_checked_first Int _ 100 _ _ rfl rfl rfl rfl

/-- C3: the bitrate returned by `decode` is
`total_byte_length / total_duration_seconds * 8` (u64 integer division),
where `total_duration_seconds` is the whole-seconds part of the track's
time base applied to the total frame count. -/
theorem C3_bitrate_formula (α : Type) [Sample α]
    (len nf sr numer denom id : Nat) (ch : Channels) (events : List (ReadEvent α))
    (bf : SampleBuffer α)
    (hloop : decodeLoop id (SampleBuffer.new α nf ch sr) events = some bf)
    (hsec : TimeBase.calcTimeSeconds ⟨numer, denom⟩ nf ≠ 0) :
    decode α (mkSource α len nf sr numer denom id ch events)
      = some (.ok (len / TimeBase.calcTimeSeconds ⟨numer, denom⟩ nf * 8, bf)) := by
  cases ch <;>
    simp [decode, decodeAux, mkSource, Channels.toLayout, hsec, hloop]

theorem C3_witness :
    decode Int (mkSource Int 100000 44100 44100 1 44100 1 .mono [])
      = some (.ok (800000, SampleBuffer.new Int 44100 .mono 44100)) := by
  have h := C3_bitrate_formula Int 100000 44100 44100 1 44100 1 .mono []
    (SampleBuffer.new Int 44100 .mono 44100) rfl (by decide)
  have hval : (100000 : Nat) / TimeBase.calcTimeSeconds ⟨1, 44100⟩ 44100 * 8 = 800000 := by
    decide
  rw [hval] at h
  exact h

/-- C10: the bitrate computation divides the source byte length by the
whole-seconds part of the duration; when the duration derived from the time
base and frame count is strictly under one second that divisor is zero, and
`decode` hits the u64 division-by-zero panic (modelled as `none`) instead of
returning any result. -/
theorem C10_subsecond_duration_panics (α : Type) [Sample α]
    (len nf sr numer denom id : Nat) (ch : Channels) (events : List (ReadEvent α))
    (_hdenom : 0 < denom) (hsub : nf * numer < denom) :
    decode α (mkSource α len nf sr numer denom id ch events) = none := by
  have hsec : TimeBase.calcTimeSeconds ⟨numer, denom⟩ nf = 0 := Nat.div_eq_of_lt hsub
  cases ch <;>
    simp [decode, decodeAux, mkSource, Channels.toLayout, hsec]

theorem C10_witness :
    decode Int (mkSource Int 100000 22050 44100 1 44100 1 .stereo [.readErr]) = none :=
  C10_subsecond_duration_panics Int 100000 22050 44100 1 44100 1 .stereo [.readErr]
    (by decide) (by decide)

/-- C5: partial-failure tolerance of the packet loop. For every packet
stream (whose successfully decoded planes are interleavable and fit the
buffer sized from the declared frame count), a packet failing with a
recoverable decode error is discarded and the loop continues; any other
reader or decoder error (including end of stream) ends the loop without an
error; `decode` returns `Ok` with a buffer whose written prefix is exactly
the samples of the successfully decoded packets of the selected track, in
stream order, followed by untouched silence. -/
theorem C5_loop_partial_failure_tolerance (α : Type) [Sample α]
    (len nf sr numer denom id : Nat) (ch : Channels) (events : List (ReadEvent α))
    (hok : ∀ pl ∈ decodedPlanesSpec id events, (interleave pl ch).isSome)
    (hfit : (decodedSamples id ch events).length ≤ ch.count * nf)
    (hsec : TimeBase.calcTimeSeconds ⟨numer, denom⟩ nf ≠ 0) :
    decode α (mkSource α len nf sr numer denom id ch events)
      = some (.ok (len / TimeBase.calcTimeSeconds ⟨numer, denom⟩ nf * 8,
        { buffer := decodedSamples id ch events
            ++ List.replicate (ch.count * nf - (decodedSamples id ch events).length)
              Sample.MID
          written := (decodedSamples id ch events).length
          duration := nf
          channels := ch
          sample_rate := sr })) := by
  have hok2 : ∀ pl ∈ decodedPlanesSpec id events,
      (interleave pl (SampleBuffer.new α nf ch sr).channels).isSome := hok
  have hfit2 : (SampleBuffer.new α nf ch sr).written
      + (decodedSamples id (SampleBuffer.new α nf ch sr).channels events).length
      ≤ (SampleBuffer.new α nf ch sr).buffer.length := by
    simp only [SampleBuffer.new, List.length_replicate, Nat.zero_add]
    exact hfit
  obtain ⟨b2, hloop, hbuf, hw, hd2, hch2, hsr2⟩ :=
    decodeLoop_spec id events (SampleBuffer.new α nf ch sr) hok2 hfit2
  have hb2 : b2 = ⟨decodedSamples id ch events
        ++ List.replicate (ch.count * nf - (decodedSamples id ch events).length)
          Sample.MID,
      (decodedSamples id ch events).length, nf, ch, sr⟩ := by
    cases b2
    simp only [SampleBuffer.new] at hbuf hw hd2 hch2 hsr2
    simp only [SampleBuffer.mk.injEq]
    refine ⟨?_, by simpa using hw, hd2, hch2, hsr2⟩
    rw [hbuf]
    simp [List.drop_replicate]
  rw [hb2] at hloop
  cases ch <;>
    simp [decode, decodeAux, mkSource, Channels.toLayout, hsec, hloop]

theorem C5_witness :
    decode Int (mkSource Int 1000 8 8000 1 1 1 .mono
        [.packet 1 (.ok [[1, 2]]), .packet 2 (.ok [[9]]), .packet 1 .decodeErr,
         .packet 1 (.ok [[3]]), .readErr])
      = some (.ok (1000, { buffer := [1, 2, 3, 0, 0, 0, 0, 0]
                           written := 3
                           duration := 8
                           channels := .mono
                           sample_rate := 8000 })) := by
  have h := C5_loop_partial_failure_tolerance Int 1000 8 8000 1 1 1 .mono
    [.packet 1 (.ok [[1, 2]]), .packet 2 (.ok [[9]]), .packet 1 .decodeErr,
     .packet 1 (.ok [[3]]), .readErr] (by decide) (by decide) (by decide)
  exact h.trans (by decide)

/-- The buffer of the C1 counterexample: freshly constructed with duration
1 frame, Mono, 8000 Hz, so `written = 0` while one sample is allocated. -/
def c1Buffer : SampleBuffer Int :=
  SampleBuffer.new Int 1 .mono 8000

theorem C1_counterexample :
    (encode_vorbis (alwaysOkEncoder Int [7]) c1Buffer 64000).2 = 1 ∧
    (c1Buffer.written + 2047) / 2048 = 0 ∧
    c1Buffer.samples.length ≠ c1Buffer.written := by
  refine ⟨by decide, by decide, by decide⟩

/-- C1 (amended): `encode_vorbis` partitions the buffer's entire allocated
storage — `samples()` returns the whole backing slice, written and silence
region alike — into chunks of 2048, so the encoder receives exactly
`ceil(capacity / 2048)` submit-block calls (not `ceil(written / 2048)`),
and the concatenation of the submitted chunks is the full allocated
sample slice. -/
theorem C1_chunking_covers_capacity (α : Type) (b : SampleBuffer α) (bitrate : Nat)
    (bytes : List Nat) (hsr : b.sample_rate ≠ 0)
    (hbr : bitrate % 4294967296 ≠ 0)
    (hch : b.channels = .mono ∨ b.buffer.length % 2 = 0) :
    encode_vorbis (alwaysOkEncoder α bytes) b bitrate
      = (.ok bytes, (b.samples.length + 2047) / 2048) ∧
    (chunks2048 b.samples).flatten = b.samples ∧
    b.samples = b.buffer := by
  have hcnt : b.channels.count % 256 ≠ 0 := by
    cases b.channels <;> decide
  have hchunks : ∀ c ∈ chunks2048 b.samples, (deintereave c b.channels).isSome := by
    intro c hc
    refine deintereave_isSome_of_even c b.channels ?_
    rcases hch with h | h
    · exact Or.inl h
    · exact Or.inr (chunks2048_even b.samples h c hc)
  have hloop := encodeLoop_count (alwaysOkEncoder α bytes) b.channels
    (fun _ => rfl) (chunks2048 b.samples) 0 hchunks
  refine ⟨?_, chunks2048_flatten b.samples, rfl⟩
  rw [show (b.samples.length + 2047) / 2048 = (chunks2048 b.samples).length from
    (chunks2048_length b.samples).symm]
  simp only [encode_vorbis, hsr, hcnt, hbr, hloop, if_neg hsr, if_neg hcnt, if_neg hbr]
  simp [alwaysOkEncoder]

theorem C1_witness :
    encode_vorbis (alwaysOkEncoder Int [3, 4]) (SampleBuffer.new Int 2050 .stereo 44100)
        128000
      = (.ok [3, 4], 3) ∧
    (chunks2048 (SampleBuffer.new Int 2050 .stereo 44100).samples).flatten
      = (SampleBuffer.new Int 2050 .stereo 44100).samples := by
  have h := C1_chunking_covers_capacity Int (SampleBuffer.new Int 2050 .stereo 44100)
    128000 [3, 4] (by decide) (by decide)
    (Or.inr (by simp only [SampleBuffer.new, List.length_replicate]; decide))
  refine ⟨h.1.trans ?_, h.2.1⟩
  have hlen : (SampleBuffer.new Int 2050 .stereo 44100).samples.length = 4100 := by
    simp only [SampleBuffer.new, SampleBuffer.samples, List.length_replicate]
    decide
  rw [hlen]

/-- The buffer of the C2 counterexample: sample rate zero. -/
def c2Buffer : SampleBuffer Int :=
  SampleBuffer.new Int 0 .mono 0

theorem C2_counterexample :
    (encode_vorbis (alwaysOkEncoder Int []) c2Buffer 64000).1 = .panic ∧
    ((encode_vorbis (alwaysOkEncoder Int []) c2Buffer 64000).1).isError = false := by
  refine ⟨by decide, by decide⟩

/-- C2 (amended): a zero sample rate, or a bitrate whose low 32 bits are
zero once the builder has been constructed, makes `encode_vorbis` panic on
a failed `NonZeroU32::new(..).unwrap()` — halting the process rather than
returning an error result. -/
theorem C2_zero_args_panic (α : Type) (enc : VorbisEncoderModel α)
    (b : SampleBuffer α) (bitrate : Nat) :
    (b.sample_rate = 0 → (encode_vorbis enc b bitrate).1 = .panic) ∧
    (b.sample_rate ≠ 0 → enc.builder_new = .ok () → bitrate % 4294967296 = 0 →
      (encode_vorbis enc b bitrate).1 = .panic) := by
  constructor
  · intro h
    simp [encode_vorbis, h]
  · intro h1 h2 h3
    have hcnt : b.channels.count % 256 ≠ 0 := by
      cases b.channels <;> decide
    simp [encode_vorbis, h1, h2, h3, hcnt]

theorem C2_witness :
    (encode_vorbis (alwaysOkEncoder Int []) (SampleBuffer.new Int 4 .stereo 0)
        64000).1 = .panic ∧
    (encode_vorbis (alwaysOkEncoder Int []) (SampleBuffer.new Int 4 .stereo 44100)
        4294967296).1 = .panic :=
  ⟨(C2_zero_args_panic Int (alwaysOkEncoder Int []) (SampleBuffer.new Int 4 .stereo 0)
      64000).1 rfl,
    (C2_zero_args_panic Int (alwaysOkEncoder Int []) (SampleBuffer.new Int 4 .stereo 44100)
      4294967296).2 (by decide) rfl (by decide)⟩

end Audyo
